import Mathlib

/-!
Verification of the EasyTransfer geometry interchange codec.

This development shallowly embeds the algorithmic core of the EasyTransfer
repository (the Rhino USD converter `src/build_WIP/rhino/library/ET_rhino.py`
and the Blender JSON converters `src/easy_transfer_blender/easytransfer_blender.py`
and `src/easy_transfer_blender/easy_transfer_blender.py`) and settles the
specification claims about it.  Host floating-point values are modelled as
rationals (`ℚ`); packed binary values are modelled by their bit patterns,
natural numbers below `2 ^ (8 * width)`.

The file is organised as definitions first (section by component), then the
supporting lemmas and the claim theorems.
-/

namespace ET

/-! ## Definitions -/

/-! ### Base64 (the encoding used by `Attribute.Encode` in `ET_rhino.py`)

`base64.b64encode` over the packed byte buffer, standard alphabet with
trailing padding.  Bytes are naturals below 256. -/

/-- Standard base64 alphabet, index 0 to 63. -/
def b64chars : List Char :=
  [ 'A', 'B', 'C', 'D', 'E', 'F', 'G', 'H', 'I', 'J', 'K', 'L', 'M',
    'N', 'O', 'P', 'Q', 'R', 'S', 'T', 'U', 'V', 'W', 'X', 'Y', 'Z',
    'a', 'b', 'c', 'd', 'e', 'f', 'g', 'h', 'i', 'j', 'k', 'l', 'm',
    'n', 'o', 'p', 'q', 'r', 's', 't', 'u', 'v', 'w', 'x', 'y', 'z',
    '0', '1', '2', '3', '4', '5', '6', '7', '8', '9', '+', '/' ]

/-- Character standing for the sextet value `s` (`s < 64`). -/
def b64char (s : Nat) : Char := b64chars.getD s 'A'

/-- Value of a base64 alphabet character, `none` for characters outside the
alphabet (including the padding character). -/
def b64val (c : Char) : Option Nat :=
  let i := b64chars.indexOf c
  if i < 64 then some i else none

/-- Base64-encode a byte list: three bytes become four alphabet characters,
a final group of one or two bytes is padded with one or two padding
characters, exactly as `base64.b64encode` does. -/
def b64encode : List Nat → List Char
  | [] => []
  | [a] =>
      [b64char (a / 4), b64char (a % 4 * 16), '=', '=']
  | [a, b] =>
      [b64char (a / 4), b64char (a % 4 * 16 + b / 16), b64char (b % 16 * 4), '=']
  | a :: b :: c :: rest =>
      b64char (a / 4) :: b64char (a % 4 * 16 + b / 16) ::
        b64char (b % 16 * 4 + c / 64) :: b64char (c % 64) :: b64encode rest

/-- Base64-decode: consume four characters at a time, allowing padding only
in the final group.  Returns `none` on malformed input. -/
def b64decode : List Char → Option (List Nat)
  | [] => some []
  | c1 :: c2 :: c3 :: c4 :: rest =>
      match b64val c1, b64val c2 with
      | some s1, some s2 =>
          if c3 = '=' then
            if c4 = '=' ∧ rest = [] then some [s1 * 4 + s2 / 16] else none
          else
            match b64val c3 with
            | some s3 =>
                if c4 = '=' then
                  if rest = [] then some [s1 * 4 + s2 / 16, s2 % 16 * 16 + s3 / 4]
                  else none
                else
                  match b64val c4 with
                  | some s4 =>
                      (b64decode rest).map
                        (fun bs =>
                          (s1 * 4 + s2 / 16) :: (s2 % 16 * 16 + s3 / 4) ::
                            (s3 % 4 * 64 + s4) :: bs)
                  | none => none
            | none => none
      | _, _ => none
  | _ => none

/-! ### Little-endian fixed-width packing (`struct.pack` with format `<Nx`)

A packed value of byte width `w` is modelled by its bit pattern, a natural
number below `2 ^ (8 * w)`; `struct.pack` lays its bytes out little-endian. -/

/-- Little-endian byte expansion of `v` to exactly `w` bytes. -/
def leBytes : Nat → Nat → List Nat
  | 0, _ => []
  | w + 1, v => v % 256 :: leBytes w (v / 256)

/-- Reassemble a little-endian byte list into a value. -/
def leVal : List Nat → Nat
  | [] => 0
  | b :: bs => b + 256 * leVal bs

/-- Pack a list of fixed-width values into a flat little-endian byte buffer,
as `struct.pack` with a repeat-count format string does. -/
def packLE (w : Nat) (vals : List Nat) : List Nat :=
  vals.flatMap (leBytes w)

set_option linter.unusedVariables false in
/-- Split a byte buffer into fixed-width little-endian values (the inverse
interpretation used on decode). -/
def unpackLE (w : Nat) (bytes : List Nat) : List Nat :=
  if hg : w = 0 ∨ bytes = [] then []
  else leVal (bytes.take w) :: unpackLE w (bytes.drop w)
  termination_by bytes.length
  decreasing_by
    have hw : w ≠ 0 := fun hc => hg (Or.inl hc)
    have hb : bytes ≠ [] := fun hc => hg (Or.inr hc)
    have : 0 < bytes.length := List.length_pos.mpr hb
    simp [List.length_drop]
    omega

set_option linter.unusedVariables false in
/-- Split a list into consecutive groups of `k` elements (un-flattening per
component count on decode). -/
def chunkEvery (k : Nat) (l : List α) : List (List α) :=
  if hg : k = 0 ∨ l.isEmpty then []
  else l.take k :: chunkEvery k (l.drop k)
  termination_by l.length
  decreasing_by
    have hk : k ≠ 0 := fun hc => hg (Or.inl hc)
    have hl : l.isEmpty ≠ true := fun hc => hg (Or.inr hc)
    have : 0 < l.length := by
      cases l with
      | nil => simp at hl
      | cons a rest => simp
    simp [List.length_drop]
    omega

/-! ### Typed attribute codec (`Attribute.Encode`, `ET_rhino.py` lines 18 to 76)

Values are bit patterns.  An array element is a scalar, a vector of
components, or a matrix of rows, matching the three flatten levels of
`USD_TYPE_CONFIG`. -/

/-- The `USD_TYPE_CONFIG` table: `struct` format character and flatten level
(0 scalar, 1 vector, 2 matrix); `none` for types outside the enumeration. -/
def USD_TYPE_CONFIG : String → Option (Char × Nat)
  | "float" => some ('f', 0)
  | "half" => some ('f', 0)
  | "float2" => some ('f', 1)
  | "texCoord2f" => some ('f', 1)
  | "half2" => some ('f', 1)
  | "float3" => some ('f', 1)
  | "point3f" => some ('f', 1)
  | "vector3f" => some ('f', 1)
  | "normal3f" => some ('f', 1)
  | "color3f" => some ('f', 1)
  | "half3" => some ('f', 1)
  | "point3h" => some ('f', 1)
  | "normal3h" => some ('f', 1)
  | "color3h" => some ('f', 1)
  | "float4" => some ('f', 1)
  | "color4f" => some ('f', 1)
  | "quatf" => some ('f', 1)
  | "half4" => some ('f', 1)
  | "texCoord2h" => some ('f', 1)
  | "double" => some ('d', 0)
  | "double2" => some ('d', 1)
  | "texCoord2d" => some ('d', 1)
  | "double3" => some ('d', 1)
  | "point3d" => some ('d', 1)
  | "vector3d" => some ('d', 1)
  | "normal3d" => some ('d', 1)
  | "color3d" => some ('d', 1)
  | "double4" => some ('d', 1)
  | "color4d" => some ('d', 1)
  | "quatd" => some ('d', 1)
  | "matrix2d" => some ('d', 2)
  | "matrix3d" => some ('d', 2)
  | "matrix4d" => some ('d', 2)
  | "int" => some ('i', 0)
  | "uint" => some ('I', 0)
  | "int2" => some ('i', 1)
  | "int3" => some ('i', 1)
  | "int4" => some ('i', 1)
  | "int64" => some ('q', 0)
  | "uint64" => some ('Q', 0)
  | "bool" => some ('?', 0)
  | _ => none

/-- Byte width of a `struct` format character.  Only the seven characters
produced by `USD_TYPE_CONFIG` are reachable; the catch-all value is
arbitrary. -/
def widthOf : Char → Nat
  | 'f' => 4
  | 'd' => 8
  | 'i' => 4
  | 'I' => 4
  | 'q' => 8
  | 'Q' => 8
  | '?' => 1
  | _ => 1

/-- Component count of a vector element type (used by the decoder to
un-flatten; from the trailing arity of the type name). -/
def compCount : String → Nat
  | "float2" => 2
  | "texCoord2f" => 2
  | "half2" => 2
  | "texCoord2h" => 2
  | "double2" => 2
  | "texCoord2d" => 2
  | "int2" => 2
  | "float3" => 3
  | "point3f" => 3
  | "vector3f" => 3
  | "normal3f" => 3
  | "color3f" => 3
  | "half3" => 3
  | "point3h" => 3
  | "normal3h" => 3
  | "color3h" => 3
  | "double3" => 3
  | "point3d" => 3
  | "vector3d" => 3
  | "normal3d" => 3
  | "color3d" => 3
  | "int3" => 3
  | "float4" => 4
  | "color4f" => 4
  | "quatf" => 4
  | "half4" => 4
  | "double4" => 4
  | "color4d" => 4
  | "quatd" => 4
  | "int4" => 4
  | _ => 1

/-- Row/column dimension of a matrix element type. -/
def matDim : String → Nat
  | "matrix2d" => 2
  | "matrix3d" => 3
  | "matrix4d" => 4
  | _ => 1

/-- An element of a USD attribute array: a scalar bit pattern, a vector of
component bit patterns, or a matrix of rows. -/
inductive UsdElem where
  | s (v : Nat)
  | v (comps : List Nat)
  | m (rows : List (List Nat))
deriving DecidableEq, Repr

instance : Inhabited UsdElem := ⟨UsdElem.s 0⟩

/-- Scalar view of an element; `none` models the `struct.pack` failure when
a non-number is packed at flatten level 0. -/
def asScalar : UsdElem → Option Nat
  | .s v => some v
  | _ => none

/-- Vector view of an element (flatten level 1 iterates each element). -/
def asVec : UsdElem → Option (List Nat)
  | .v l => some l
  | _ => none

/-- Matrix view of an element (flatten level 2 iterates rows then values). -/
def asMat : UsdElem → Option (List (List Nat))
  | .m rs => some rs
  | _ => none

/-- Apply a partial view to every element, failing if any element has the
wrong shape (the Python comprehension raises and the `except` returns
`None`). -/
def mapOption (f : α → Option β) : List α → Option (List β)
  | [] => some []
  | a :: rest =>
      match f a, mapOption f rest with
      | some b, some bs => some (b :: bs)
      | _, _ => none

/-- The flattening step of `Attribute.Encode`: level 0 keeps the array,
level 1 is `[val for vec in usd_array for val in vec]`, level 2 is
`[val for mat in usd_array for row in mat for val in row]`.  A shape
mismatch raises in Python and is modelled as `none`. -/
def flattenElems (lvl : Nat) (arr : List UsdElem) : Option (List Nat) :=
  if lvl = 0 then mapOption asScalar arr
  else if lvl = 1 then (mapOption asVec arr).map List.flatten
  else (mapOption asMat arr).map (fun ms => (ms.map List.flatten).flatten)

/-- The `function == "base64"` path of `Attribute.Encode` (`ET_rhino.py`
lines 43 to 73): an empty array yields `None`; a type outside
`USD_TYPE_CONFIG` yields `None` (with a warning); otherwise the array is
flattened per the type's flatten level, packed little-endian at the format
character's width (`struct.pack`, whose failure on a wrong shape or a value
outside the width is the modelled `none`), and base64-encoded. -/
def Encode (usd_array : List UsdElem) (usd_type : String) : Option (List Char) :=
  if usd_array.isEmpty then none
  else
    match USD_TYPE_CONFIG usd_type with
    | none => none
    | some (fmt, lvl) =>
        match flattenElems lvl usd_array with
        | none => none
        | some flat =>
            if flat.all (fun v => v < 256 ^ widthOf fmt) then
              some (b64encode (packLE (widthOf fmt) flat))
            else none

/-- Modelled from the spec: the repository has no binary attribute decoder
(`ET_rhino.py` only defines the encoder `Attribute.Encode`); spec section 4.1
states that decoding is the exact inverse — base64-decode, interpret as
little-endian fixed-width values, and un-flatten per the type's component
count. -/
def Decode (blob : List Char) (usd_type : String) : Option (List UsdElem) :=
  match USD_TYPE_CONFIG usd_type with
  | none => none
  | some (fmt, lvl) =>
      match b64decode blob with
      | none => none
      | some bytes =>
          let vals := unpackLE (widthOf fmt) bytes
          if lvl = 0 then some (vals.map UsdElem.s)
          else if lvl = 1 then
            some ((chunkEvery (compCount usd_type) vals).map UsdElem.v)
          else
            some ((chunkEvery (matDim usd_type * matDim usd_type) vals).map
              (fun g => UsdElem.m (chunkEvery (matDim usd_type) g)))

/-- Well-formedness of an element for a scalar type of width `w`. -/
def scalarOk (w : Nat) : UsdElem → Bool
  | .s v => v < 256 ^ w
  | _ => false

/-- Well-formedness of an element for a vector type: `k` components, each
representable at width `w`. -/
def vecOk (w k : Nat) : UsdElem → Bool
  | .v l => l.length = k && l.all (fun x => x < 256 ^ w)
  | _ => false

/-- Well-formedness of an element for a `k × k` matrix type of width `w`. -/
def matOk (w k : Nat) : UsdElem → Bool
  | .m rs => rs.length = k && rs.all (fun r => r.length = k && r.all (fun x => x < 256 ^ w))
  | _ => false

/-- An array is representable in the declared type: the type is in the
enumeration and every element has the type's shape with in-range values. -/
def wellShaped (t : String) (arr : List UsdElem) : Bool :=
  match USD_TYPE_CONFIG t with
  | none => false
  | some (fmt, lvl) =>
      if lvl = 0 then arr.all (scalarOk (widthOf fmt))
      else if lvl = 1 then arr.all (vecOk (widthOf fmt) (compCount t))
      else arr.all (matOk (widthOf fmt) (matDim t))

/-- Rational value of an IEEE-754 binary32 bit pattern in the normal range
(sufficient to name the concrete floats of the spec's examples). -/
def float32val (bits : Nat) : ℚ :=
  let sign : ℚ := if bits / 2 ^ 31 % 2 = 1 then -1 else 1
  let e : Nat := bits / 2 ^ 23 % 256
  let m : Nat := bits % 2 ^ 23
  sign * (((2 ^ 23 + m : Nat) : ℚ) * 2 ^ e) / 2 ^ 150

/-! ### Unit reconciliation (`Execute.EasyPaste`, `ET_rhino.py` lines 859 to 864)

`world_scale` starts at `1.0` and is reassigned to
`file_meters / current_meters_factor` only when the Rhino document's
meters-per-unit factor is strictly positive. -/

/-- The import scale factor computed by `Execute.EasyPaste`. -/
def world_scale (file_meters current_meters_factor : ℚ) : ℚ :=
  if 0 < current_meters_factor then file_meters / current_meters_factor else 1

/-! ### Curve basis engine (`ToJSON.calculate_knots`,
`easytransfer_blender.py` lines 86 to 185)

`count` is `len(pt)`, the three Booleans are `use_cyclic_u`,
`use_endpoint_u`, `use_bezier_u`.  Each branch's sequence of in-place list
assignments is resolved into the closed form of the final list (later loops
overwrite earlier ones, which the branch order of the conditionals below
reflects); Python floor division over possibly negative integers is
`Int.fdiv`. -/

/-- Knot formula `float((i - 1) // degree) + 1` shared by the four
bezier-segmented branches. -/
def steppedKnot (degree : Nat) (i : Nat) : ℚ :=
  ((((i : Int) - 1).fdiv degree + 1 : Int) : ℚ)

/-- Shallow embedding of `ToJSON.calculate_knots`; returns the pair
`(knots, points)`. -/
def calculate_knots (pt : List α) (degree : Nat)
    (use_cyclic_u use_endpoint_u use_bezier_u : Bool) : List ℚ × List α :=
  let count := pt.length
  if use_cyclic_u && use_endpoint_u && use_bezier_u then
    -- lines 104 to 110: valid only when count % degree == 0; the loop runs
    -- from i = 0, and (0 - 1) // degree = -1 feeds the shared formula
    if count % degree = 0 then
      let n_knots := count / degree * degree + degree + 1
      ((List.range n_knots).map (steppedKnot degree), [])
    else ([], [])
  else if use_cyclic_u && use_endpoint_u && !use_bezier_u then
    -- lines 113 to 128: clamp of width degree at both ends; knots[count] is
    -- read after the second loop, so its value depends on count vs degree
    let n_knots := count + 2 * degree + 1
    let kc : ℚ := if degree + 1 ≤ count then (count : ℚ) - degree + 1
                  else if 1 ≤ count then 1 else 0
    let e := kc + 1
    (((List.range n_knots).map fun i =>
        if count + degree < i then e + ((i - (count + degree) : Nat) : ℚ)
        else if count < i then e
        else if degree < i then (i : ℚ) - degree + 1
        else if 1 ≤ i then 1
        else 0), pt)
  else if use_cyclic_u && !use_endpoint_u && use_bezier_u then
    -- lines 130 to 136: same as the first branch but the loop starts at 1,
    -- leaving knots[0] = 0.0
    if count % degree = 0 then
      let n_knots := count / degree * degree + degree + 1
      (((List.range n_knots).map fun i => if i = 0 then 0 else steppedKnot degree i), [])
    else ([], [])
  else if use_cyclic_u && !use_endpoint_u && !use_bezier_u then
    -- lines 138 to 144: uniform integer sequence
    (((List.range (count + 2 * degree + 1)).map fun i => (i : ℚ)), pt)
  else if !use_cyclic_u && use_endpoint_u && use_bezier_u then
    -- lines 147 to 152: count here enters as count - 1 in the knot count
    let n_knots := (((count : Int) - 1).fdiv degree * degree + 1 + degree + 1).toNat
    (((List.range n_knots).map fun i => if i = 0 then 0 else steppedKnot degree i), [])
  else if !use_cyclic_u && use_endpoint_u && !use_bezier_u then
    -- lines 154 to 168: degree + 1 zeros, one increment per interior point,
    -- tail clamped to span_count = count - degree (an int, possibly ≤ 0)
    let n_knots := count + degree + 1
    (((List.range n_knots).map fun i =>
        if count ≤ i then (count : ℚ) - degree
        else if degree < i then (i : ℚ) - degree
        else 0), pt)
  else if !use_cyclic_u && !use_endpoint_u && use_bezier_u then
    -- lines 170 to 175: like the clamped bezier case with count - 2
    let n_knots := (((count : Int) - 2).fdiv degree * degree + 1 + degree + 1).toNat
    (((List.range n_knots).map fun i => if i = 0 then 0 else steppedKnot degree i), [])
  else
    -- lines 177 to 183: uniform integer sequence
    (((List.range (count + degree + 1)).map fun i => (i : ℚ)), pt)

/-- The NURBS-specific fields of the JSON object built by
`ToJSON.convert_nurbs` (`easytransfer_blender.py` lines 255 to 282). -/
structure NurbsJson (α : Type) where
  points : List α
  degree : Nat
  closed : Bool
  knots : List ℚ

/-- `ToJSON.convert_nurbs` restricted to the fields derived from the spline
topology: it calls `calculate_knots` with `degree = order_u - 1` and
serializes the returned points and knots. -/
def convert_nurbs (pts : List α) (order_u : Nat)
    (use_cyclic_u use_endpoint_u use_bezier_u : Bool) : NurbsJson α :=
  let kp := calculate_knots pts (order_u - 1) use_cyclic_u use_endpoint_u use_bezier_u
  { points := kp.2, degree := order_u - 1, closed := use_cyclic_u, knots := kp.1 }

/-! ### Knot classification (`ToOBJ.analyze_knots`,
`easytransfer_blender.py` lines 392 to 437) -/

/-- Elementwise `np.allclose(xs, y, rtol, atol)`:
`|x - y| ≤ atol + rtol * |y|` for every element. -/
def allclose (xs : List ℚ) (y : ℚ) (rtol atol : ℚ) : Bool :=
  xs.all fun x => decide (|x - y| ≤ atol + rtol * |y|)

/-- `np.diff`: successive differences. -/
def npDiff : List ℚ → List ℚ
  | a :: b :: rest => (b - a) :: npDiff (b :: rest)
  | _ => []

/-- Shallow embedding of `ToOBJ.analyze_knots`; returns
`(is_closed, is_endpoint, is_bezier)`.  numpy's default tolerances are
`rtol = 1e-5`, `atol = 1e-8`; the uniformity check passes `rtol = 1e-3`. -/
def analyze_knots (knots : List ℚ) (degree point_count : Nat) :
    Bool × Bool × Bool :=
  if knots = [] ∨ knots.length < 2 * degree then (false, false, false)
  else
    let start_clamped :=
      allclose (knots.take (degree + 1)) (knots.headD 0) (1/100000) (1/100000000)
    let end_clamped :=
      allclose (knots.drop (knots.length - (degree + 1))) (knots.getLastD 0)
        (1/100000) (1/100000000)
    let is_endpoint := start_clamped && end_clamped
    let valid_diffs := (npDiff knots).filter fun d => decide ((1/1000000 : ℚ) < d)
    let is_closed :=
      if is_endpoint then false
      else if valid_diffs.length ≠ 0 then
        allclose valid_diffs (valid_diffs.sum / valid_diffs.length)
          (1/1000) (1/100000000)
      else false
    let is_bezier := is_endpoint && decide (point_count = degree + 1)
    (is_closed, is_endpoint, is_bezier)

/-! ### Crease codec (`BlenderCopy.create_json_data`,
`easy_transfer_blender.py` lines 27 to 46, and `BlenderPaste.create_object`,
lines 139 to 164) -/

/-- Python `tuple(sorted((a, b)))`: the unordered-pair key. -/
def sortPair (p : Nat × Nat) : Nat × Nat :=
  if p.1 ≤ p.2 then p else (p.2, p.1)

/-- Tag of the edge at enumeration index `i`: `Crease` exactly when the mesh
has a `crease_edge` edge attribute (`crease_data` is `some`) and the edge's
crease value exceeds 0.1. -/
def edgeTag (crease_data : Option (List ℚ)) (i : Nat) : String :=
  match crease_data with
  | some cs => if (1/10 : ℚ) < cs.getD i 0 then "Crease" else "Smooth"
  | none => "Smooth"

/-- The `for i, edge in enumerate(mesh.edges)` loop of `create_json_data`,
with `i` the running enumeration index. -/
def create_json_edges_from (crease_data : Option (List ℚ)) :
    List (Nat × Nat) → Nat → List ((Nat × Nat) × String)
  | [], _ => []
  | e :: rest, i => (e, edgeTag crease_data i) :: create_json_edges_from crease_data rest (i + 1)

/-- Edge records emitted by `create_json_data`: each edge is stored with its
vertex pair as given and its tag. -/
def create_json_edges (edges : List (Nat × Nat)) (crease_data : Option (List ℚ)) :
    List ((Nat × Nat) × String) :=
  create_json_edges_from crease_data edges 0

/-- The set of creased sorted pairs collected by `create_object` step 3:
pairs of the edges tagged `Crease`, sorted. -/
def creased_pairs (json_edges : List ((Nat × Nat) × String)) : List (Nat × Nat) :=
  (json_edges.filter fun e => e.2 == "Crease").map fun e => sortPair e.1

/-- Per-edge crease values assigned to the rebuilt mesh by `create_object`:
for each topological edge, 1.0 when its sorted vertex pair is in the creased
set and 0.0 otherwise (matching is purely by sorted vertex-pair key). -/
def crease_values (mesh_edges : List (Nat × Nat))
    (json_edges : List ((Nat × Nat) × String)) : List ℚ :=
  mesh_edges.map fun e => if sortPair e ∈ creased_pairs json_edges then 1 else 0

/-! ### Mesh face decoding (`Import.Mesh`, `ET_rhino.py` lines 428 to 516) -/

/-- A Rhino `MeshFace`; the triangle constructor stores `D = C`. -/
structure MeshFace where
  A : Nat
  B : Nat
  C : Nat
  D : Nat
deriving DecidableEq, Repr

instance : Inhabited MeshFace := ⟨⟨0, 0, 0, 0⟩⟩

/-- `Rhino.Geometry.MeshFace(a, b, c)`. -/
def triFace (a b c : Nat) : MeshFace := ⟨a, b, c, c⟩

/-- `Rhino.Geometry.MeshFace(a, b, c, d)`. -/
def quadFace (a b c d : Nat) : MeshFace := ⟨a, b, c, d⟩

/-- The fan triangles generated for a face whose count is neither 3 nor 4:
triangle `i` is `(v0, v_(i+1), v_(i+2))`, indices read from the flat buffer
at offset `p`. -/
def fanFaces (idx : List Nat) (p count : Nat) : List MeshFace :=
  (List.range (count - 2)).map fun i =>
    triFace (idx.getD p 0) (idx.getD (p + i + 1) 0) (idx.getD (p + i + 2) 0)

/-- The face-building loop of `Import.Mesh` (lines 433 to 465): `p` is
`idx_ptr`, `faces` accumulates `mesh_faces`, `ngons` accumulates
`ngon_data`; a count of 3 or 4 emits one face directly, any other count
fan-triangulates and records the run of generated face indices
(`start_face_idx + i` for `i < count - 2`) as one entry of `ngon_data`. -/
def decodeFacesAux (idx : List Nat) :
    List Nat → Nat → List MeshFace → List (List Nat) →
      List MeshFace × List (List Nat)
  | [], _, faces, ngons => (faces, ngons)
  | c :: rest, p, faces, ngons =>
      if c = 3 then
        decodeFacesAux idx rest (p + c)
          (faces ++ [triFace (idx.getD p 0) (idx.getD (p + 1) 0) (idx.getD (p + 2) 0)])
          ngons
      else if c = 4 then
        decodeFacesAux idx rest (p + c)
          (faces ++ [quadFace (idx.getD p 0) (idx.getD (p + 1) 0)
            (idx.getD (p + 2) 0) (idx.getD (p + 3) 0)])
          ngons
      else
        decodeFacesAux idx rest (p + c) (faces ++ fanFaces idx p c)
          (ngons ++ [List.range' faces.length (c - 2)])

/-- Decode a face-vertex-count list against a flat index buffer, returning
the built faces and the recorded ngon runs. -/
def decodeFaces (counts idx : List Nat) : List MeshFace × List (List Nat) :=
  decodeFacesAux idx counts 0 [] []

/-- Boundary-walk continuation for the ngon reconstruction of `Import.Mesh`
step 4: middle triangles contribute `f.B`, the final triangle contributes
`f.B, f.C`. -/
def rebuildTail (faces : List MeshFace) : List Nat → List Nat
  | [] => []
  | [j] => [(faces.getD j default).B, (faces.getD j default).C]
  | j :: j2 :: rest => (faces.getD j default).B :: rebuildTail faces (j2 :: rest)

/-- The final value of `v_indices` after walking one recorded ngon run
(`Import.Mesh` lines 500 to 512): the first triangle contributes
`f.A, f.B`, middle triangles `f.B`, the last triangle `f.B, f.C`.
(`MeshNgon.Create` is invoked inside the loop on each running prefix; the
last invocation receives exactly this completed list.) -/
def rebuildBoundary (faces : List MeshFace) : List Nat → List Nat
  | [] => []
  | [j] => [(faces.getD j default).A, (faces.getD j default).B]
  | j :: j2 :: rest =>
      (faces.getD j default).A :: (faces.getD j default).B ::
        rebuildTail faces (j2 :: rest)

/-! ### Mesh export topology (`Export.Mesh`, `ET_rhino.py` lines 227 to 268) -/

/-- A Rhino mesh ngon as consumed by `Export.Mesh`. -/
structure RhinoNgon where
  BoundaryVertexIndexList : List Nat
  FaceIndexList : List Nat

/-- A Rhino mesh face as consumed by `Export.Mesh`. -/
structure RhinoFace where
  IsQuad : Bool
  A : Nat
  B : Nat
  C : Nat
  D : Nat

/-- Emission state threaded through `Export.Mesh`: `face_counts`,
`face_indices` and `processed_faces`. -/
structure ExportState where
  face_counts : List Nat
  face_indices : List Nat
  processed_faces : List Nat

/-- One step of phase 1 of `Export.Mesh`: an ngon with a nonempty boundary
list is emitted once as a single face whose count is the boundary length,
its vertex indices mapped through `topo_idx`, and its member faces are
marked processed; an ngon with an empty boundary is skipped. -/
def exportNgonStep (topo_idx : Nat → Nat) (st : ExportState)
    (ngon : RhinoNgon) : ExportState :=
  if ngon.BoundaryVertexIndexList ≠ [] then
    { face_counts := st.face_counts ++ [ngon.BoundaryVertexIndexList.length]
      face_indices := st.face_indices ++ ngon.BoundaryVertexIndexList.map topo_idx
      processed_faces := st.processed_faces ++ ngon.FaceIndexList }
  else st

/-- Phase 1 of `Export.Mesh` (lines 231 to 242): the `for ngon in
mesh.Ngons` loop. -/
def exportNgons (topo_idx : Nat → Nat) : List RhinoNgon → ExportState →
    ExportState
  | [], st => st
  | g :: rest, st => exportNgons topo_idx rest (exportNgonStep topo_idx st g)

/-- One step of phase 2 of `Export.Mesh`: skip a face whose index is in
`processed_faces`, otherwise emit it as a quad (count 4) or triangle
(count 3). -/
def exportFaceStep (topo_idx : Nat → Nat) (st : ExportState)
    (p : Nat × RhinoFace) : ExportState :=
  if p.1 ∈ st.processed_faces then st
  else if p.2.IsQuad then
    { st with
        face_counts := st.face_counts ++ [4]
        face_indices := st.face_indices ++
          [topo_idx p.2.A, topo_idx p.2.B, topo_idx p.2.C, topo_idx p.2.D] }
  else
    { st with
        face_counts := st.face_counts ++ [3]
        face_indices := st.face_indices ++
          [topo_idx p.2.A, topo_idx p.2.B, topo_idx p.2.C] }

/-- The `for i in range(faces.Count)` loop of phase 2 over the enumerated
face list. -/
def exportFacesLoop (topo_idx : Nat → Nat) :
    List (Nat × RhinoFace) → ExportState → ExportState
  | [], st => st
  | p :: rest, st => exportFacesLoop topo_idx rest (exportFaceStep topo_idx st p)

/-- Phase 2 of `Export.Mesh` (lines 245 to 265): emit every face whose index
was not marked processed. -/
def exportFaces (topo_idx : Nat → Nat) (faces : List RhinoFace)
    (st : ExportState) : ExportState :=
  exportFacesLoop topo_idx faces.enum st

/-- The face topology emitted by `Export.Mesh`: ngons first, then the
unprocessed faces; returns `(face_counts, face_indices)`. -/
def ExportMesh (topo_idx : Nat → Nat) (ngons : List RhinoNgon)
    (faces : List RhinoFace) : List Nat × List Nat :=
  let st := exportFaces topo_idx faces (exportNgons topo_idx ngons ⟨[], [], []⟩)
  (st.face_counts, st.face_indices)

/-! ## Lemmas and claim theorems -/

/-- Looking a sextet up in the alphabet and back is the identity. -/
theorem b64val_b64char : ∀ s : Nat, s < 64 → b64val (b64char s) = some s := by
  decide

/-- Alphabet characters are never the padding character. -/
theorem b64char_ne_pad : ∀ s : Nat, s < 64 → b64char s ≠ '=' := by
  decide

/-- Base64 decode is a left inverse of encode on byte lists. -/
theorem b64decode_b64encode :
    ∀ bs : List Nat, (∀ b ∈ bs, b < 256) → b64decode (b64encode bs) = some bs
  | [], _ => rfl
  | [a], h => by
      have ha : a < 256 := h a (by simp)
      have h1 : a / 4 < 64 := by omega
      have h2 : a % 4 * 16 < 64 := by omega
      simp only [b64encode, b64decode, b64val_b64char _ h1, b64val_b64char _ h2]
      simp [b64char_ne_pad _ h2]
      omega
  | [a, b], h => by
      have ha : a < 256 := h a (by simp)
      have hb : b < 256 := h b (by simp)
      have h1 : a / 4 < 64 := by omega
      have h2 : a % 4 * 16 + b / 16 < 64 := by omega
      have h3 : b % 16 * 4 < 64 := by omega
      simp only [b64encode, b64decode, b64val_b64char _ h1, b64val_b64char _ h2,
        b64val_b64char _ h3]
      simp [b64char_ne_pad _ h2, b64char_ne_pad _ h3]
      omega
  | a :: b :: c :: d :: rest, h => by
      have ha : a < 256 := h a (by simp)
      have hb : b < 256 := h b (by simp)
      have hc : c < 256 := h c (by simp)
      have h1 : a / 4 < 64 := by omega
      have h2 : a % 4 * 16 + b / 16 < 64 := by omega
      have h3 : b % 16 * 4 + c / 64 < 64 := by omega
      have h4 : c % 64 < 64 := by omega
      have ih := b64decode_b64encode (d :: rest) (by
        intro x hx
        exact h x (by simp [hx]))
      simp only [b64encode, b64decode, b64val_b64char _ h1, b64val_b64char _ h2,
        b64val_b64char _ h3, b64val_b64char _ h4]
      have e1 : a / 4 * 4 + (a % 4 * 16 + b / 16) / 16 = a := by omega
      have e2 : (a % 4 * 16 + b / 16) % 16 * 16 + (b % 16 * 4 + c / 64) / 4 = b := by
        omega
      have e3 : (b % 16 * 4 + c / 64) % 4 * 64 + c % 64 = c := by omega
      simp [b64char_ne_pad _ h2, b64char_ne_pad _ h3, b64char_ne_pad _ h4, ih,
        e1, e2, e3]
  | [a, b, c], h => by
      have ha : a < 256 := h a (by simp)
      have hb : b < 256 := h b (by simp)
      have hc : c < 256 := h c (by simp)
      have h1 : a / 4 < 64 := by omega
      have h2 : a % 4 * 16 + b / 16 < 64 := by omega
      have h3 : b % 16 * 4 + c / 64 < 64 := by omega
      have h4 : c % 64 < 64 := by omega
      simp only [b64encode, b64decode, b64val_b64char _ h1, b64val_b64char _ h2,
        b64val_b64char _ h3, b64val_b64char _ h4]
      have e1 : a / 4 * 4 + (a % 4 * 16 + b / 16) / 16 = a := by omega
      have e2 : (a % 4 * 16 + b / 16) % 16 * 16 + (b % 16 * 4 + c / 64) / 4 = b := by
        omega
      have e3 : (b % 16 * 4 + c / 64) % 4 * 64 + c % 64 = c := by omega
      simp [b64char_ne_pad _ h2, b64char_ne_pad _ h3, b64char_ne_pad _ h4, e1, e2, e3]

theorem leBytes_length : ∀ (w v : Nat), (leBytes w v).length = w
  | 0, _ => rfl
  | w + 1, v => by simp [leBytes, leBytes_length w]

theorem leBytes_lt : ∀ (w v : Nat), ∀ b ∈ leBytes w v, b < 256
  | 0, _ => by simp [leBytes]
  | w + 1, v => by
      simp only [leBytes, List.mem_cons]
      rintro b (rfl | hb)
      · omega
      · exact leBytes_lt w (v / 256) b hb

theorem leVal_leBytes : ∀ (w v : Nat), v < 256 ^ w → leVal (leBytes w v) = v
  | 0, v, h => by
      simpa [leBytes, leVal] using by omega
  | w + 1, v, h => by
      have : v / 256 < 256 ^ w := by
        rw [Nat.div_lt_iff_lt_mul (by norm_num)]
        calc v < 256 ^ (w + 1) := h
        _ = 256 ^ w * 256 := by ring
      simp [leBytes, leVal, leVal_leBytes w (v / 256) this]
      omega

theorem unpackLE_nil (w : Nat) : unpackLE w [] = [] := by
  rw [unpackLE]
  simp

theorem unpackLE_packLE (w : Nat) (hw : 0 < w) :
    ∀ vals : List Nat, (∀ v ∈ vals, v < 256 ^ w) →
      unpackLE w (packLE w vals) = vals := by
  intro vals
  induction vals with
  | nil => exact fun _ => by simp [packLE, unpackLE_nil]
  | cons v vs ih =>
      intro h
      have hv : v < 256 ^ w := h v (by simp)
      have hlen : (leBytes w v).length = w := leBytes_length w v
      have hne : packLE w (v :: vs) ≠ [] := by
        simp only [packLE, List.flatMap_cons]
        intro hc
        have := congrArg List.length hc
        simp [hlen] at this
        omega
      rw [unpackLE]
      simp only [hne, or_false]
      have hwne : ¬ (w = 0) := by omega
      simp only [hwne, dif_neg, not_false_iff, false_or]
      have htake : (packLE w (v :: vs)).take w = leBytes w v := by
        simp only [packLE, List.flatMap_cons]
        rw [List.take_left' hlen]
      have hdrop : (packLE w (v :: vs)).drop w = packLE w vs := by
        simp only [packLE, List.flatMap_cons]
        rw [List.drop_left' hlen]
      rw [htake, hdrop, leVal_leBytes w v hv,
        ih (fun x hx => h x (by simp [hx]))]

/-! ### Generic list access lemma -/

theorem getD_map_range {α : Type} (f : Nat → α) (d : α) (n i : Nat) (h : i < n) :
    ((List.range n).map f).getD i d = f i := by
  rw [List.getD_eq_getElem?_getD, List.getElem?_map, List.getElem?_range h]
  rfl

/-! ### Claim C3 -/

/-- C3: `computeKnots` with `cyclic = False`, `endpoint = True`,
`bezierSegmented = False` — at `n = 6`, `d = 3` the result is exactly the 10
knots `[0,0,0,0,1,2,3,3,3,3]`; in general (for `d < n`) this case returns
`n + d + 1` knots whose first `d + 1` entries are 0, followed by one unit
increment per interior point, with the tail clamped to the final span value
`n - d`. -/
theorem calculate_knots_clamped_case {α : Type} (pt : List α) (d : Nat)
    (hd : d < pt.length) :
    (calculate_knots (List.range 6) 3 false true false).1 =
      [0, 0, 0, 0, 1, 2, 3, 3, 3, 3] ∧
    (calculate_knots pt d false true false).1.length = pt.length + d + 1 ∧
    (∀ i, i ≤ d → (calculate_knots pt d false true false).1.getD i 0 = 0) ∧
    (∀ i, d < i → i < pt.length →
      (calculate_knots pt d false true false).1.getD i 0 = (i : ℚ) - d) ∧
    (∀ i, pt.length ≤ i → i < pt.length + d + 1 →
      (calculate_knots pt d false true false).1.getD i 0 = (pt.length : ℚ) - d) := by
  refine ⟨by simp [calculate_knots, List.range_succ]; norm_num, ?_, ?_, ?_, ?_⟩ <;>
    simp only [calculate_knots, Bool.false_and, Bool.and_false, Bool.and_true,
      Bool.true_and, Bool.not_true, Bool.not_false, if_false, if_true,
      Bool.false_eq_true, ite_false, ite_true]
  · simp
  · intro i hi
    rw [getD_map_range _ _ _ i (by omega)]
    have h1 : ¬ (pt.length ≤ i) := by omega
    have h2 : ¬ (d < i) := by omega
    simp [h1, h2]
  · intro i hdi hin
    rw [getD_map_range _ _ _ i (by omega)]
    have h1 : ¬ (pt.length ≤ i) := by omega
    simp [h1, hdi]
  · intro i h1 h2
    rw [getD_map_range _ _ _ i (by omega)]
    simp [h1]

/-- Witness for C3 at the concrete input `n = 6`, `d = 3`. -/
theorem calculate_knots_clamped_case_witness :
    (calculate_knots (List.range 6) 3 false true false).1 =
      [0, 0, 0, 0, 1, 2, 3, 3, 3, 3] ∧
    (calculate_knots (List.range 6) 3 false true false).1.length = 6 + 3 + 1 :=
  ⟨(calculate_knots_clamped_case (List.range 6) 3 (by decide)).1,
   by
    have h := (calculate_knots_clamped_case (List.range 6) 3 (by decide)).2.1
    simpa using h⟩

/-! ### Claim C4 -/

set_option linter.unusedVariables false in
/-- C4: `computeKnots` with all three flags true: when `n % d = 0` it
returns `(n / d) * d + d + 1` knots with knot `i` equal to
`floor((i - 1) / d) + 1` (Python floor division), and when `n % d ≠ 0` it
returns an empty knot vector.  Degree 0 raises `ZeroDivisionError` in the
source and is excluded by the hypothesis. -/
theorem calculate_knots_cyclic_bezier_case {α : Type} (pt : List α) (d : Nat)
    (hd : 0 < d) :
    (pt.length % d = 0 →
      (calculate_knots pt d true true true).1.length = pt.length / d * d + d + 1 ∧
      ∀ i, i < pt.length / d * d + d + 1 →
        (calculate_knots pt d true true true).1.getD i 0 =
          ((((i : Int) - 1).fdiv d + 1 : Int) : ℚ)) ∧
    (pt.length % d ≠ 0 → (calculate_knots pt d true true true).1 = []) := by
  constructor
  · intro hmod
    simp only [calculate_knots, Bool.and_true, Bool.true_and, if_true, hmod,
      ite_true, if_pos]
    refine ⟨by simp, ?_⟩
    intro i hi
    rw [getD_map_range _ _ _ i (by omega)]
    rfl
  · intro hmod
    simp [calculate_knots, hmod]

/-- Witness for C4 at `n = 6`, `d = 3` (divisible) and `n = 5`, `d = 3`
(not divisible). -/
theorem calculate_knots_cyclic_bezier_case_witness :
    ((calculate_knots (List.range 6) 3 true true true).1.length = 6 / 3 * 3 + 3 + 1 ∧
      (calculate_knots (List.range 6) 3 true true true).1 =
        [0, 1, 1, 1, 2, 2, 2, 3, 3, 3]) ∧
    (calculate_knots (List.range 5) 3 true true true).1 = [] :=
  ⟨⟨by
      have h := ((calculate_knots_cyclic_bezier_case (List.range 6) 3 (by decide)).1
        (by decide)).1
      simpa using h,
    by simp [calculate_knots, steppedKnot, List.range_succ]⟩,
   (calculate_knots_cyclic_bezier_case (List.range 5) 3 (by decide)).2 (by decide)⟩

/-! ### Claim C10 -/

set_option linter.unusedVariables false in
/-- C10: every bezier-segmented call of the knot computation (any values of
the cyclic and endpoint flags) returns an empty `points` list — only the
four non-bezier-segmented cases return the input control points — so
`convert_nurbs` serializes an empty control-point list for every
bezier-segmented spline while still carrying the computed knot vector in its
`knots` field.  Degree 0 raises `ZeroDivisionError` in the source and is
excluded by the hypothesis. -/
theorem calculate_knots_bezier_empty_points {α : Type} (pt : List α) (d : Nat)
    (A B : Bool) (hd : 1 ≤ d) :
    (calculate_knots pt d A B true).2 = [] ∧
    (calculate_knots pt d A B false).2 = pt ∧
    (convert_nurbs pt (d + 1) A B true).points = [] ∧
    (convert_nurbs pt (d + 1) A B true).knots = (calculate_knots pt d A B true).1 := by
  have h1 : (calculate_knots pt d A B true).2 = [] := by
    cases A <;> cases B <;> simp [calculate_knots, apply_ite]
  refine ⟨h1, ?_, ?_, ?_⟩
  · cases A <;> cases B <;> simp [calculate_knots]
  · simpa [convert_nurbs] using h1
  · simp [convert_nurbs]

/-- Witness for C10 at `d = 3`, both flags false, three control points. -/
theorem calculate_knots_bezier_empty_points_witness :
    (calculate_knots [0, 1, 2] 3 false false true).2 = [] ∧
    (calculate_knots [0, 1, 2] 3 false false false).2 = [0, 1, 2] :=
  ⟨(calculate_knots_bezier_empty_points [0, 1, 2] 3 false false (by decide)).1,
   (calculate_knots_bezier_empty_points [0, 1, 2] 3 false false (by decide)).2.1⟩

/-! ### Claim C7 (corrected) -/

/-- C7 counterexample: a zero (or negative) host unit ratio is not a
`ConfigurationError` in the code — `Execute.EasyPaste` silently leaves the
scale factor at its default 1.0 and proceeds to import, producing an
ordinary scale value instead of aborting. -/
theorem world_scale_zero_unit_not_error :
    world_scale 1 0 = 1 ∧ world_scale 1 (-1) = 1 := by
  constructor <;> norm_num [world_scale]

/-- C7 amended: the import scale factor equals
`documentMetersPerUnit / hostMetersPerUnit` whenever the host unit ratio is
strictly positive (in particular `1 / 0.01 = 100`); a zero or negative host
unit ratio is not an error — the scale silently defaults to 1.0. -/
theorem world_scale_spec (doc host : ℚ) (h : 0 < host) :
    world_scale doc host = doc / host ∧
    ∀ h2 : ℚ, h2 ≤ 0 → world_scale doc h2 = 1 := by
  constructor
  · simp [world_scale, h]
  · intro h2 hneg
    have : ¬ (0 < h2) := by linarith
    simp [world_scale, this]

/-- Witness for C7 (amended) at document unit 1.0 and host unit 0.01. -/
theorem world_scale_spec_witness : world_scale 1 (1/100) = 100 :=
  ((world_scale_spec 1 (1/100) (by norm_num)).1).trans (by norm_num)

/-! ### Claim C6 -/

/-- C6: an element type outside the `USD_TYPE_CONFIG` enumeration makes the
attribute encoder return no payload (the Python code prints the unsupported
type warning and returns `None`, so the attribute is dropped while the
node's import continues), and an empty input array likewise yields no payload at
all — `None`, never an empty blob. -/
theorem Encode_unknown_or_empty (t : String) (arr : List UsdElem)
    (hunk : USD_TYPE_CONFIG t = none) :
    Encode arr t = none ∧ ∀ t2 : String, Encode [] t2 = none := by
  constructor
  · unfold Encode
    split
    · rfl
    · rw [hunk]
  · intro t2
    unfold Encode
    simp

/-- Witness for C6 at an out-of-enumeration type and at the empty array. -/
theorem Encode_unknown_or_empty_witness :
    Encode [UsdElem.s 0] ("notatype") = none ∧ Encode [] ("float") = none :=
  ⟨(Encode_unknown_or_empty ("notatype") [UsdElem.s 0] rfl).1,
   (Encode_unknown_or_empty ("notatype") [UsdElem.s 0] rfl).2 ("float")⟩

/-! ### Claim C2 -/

/-- Membership in the decoder's creased-pair set, characterised against the
encoder's edge list and crease values (generalised over the enumeration
start index). -/
theorem mem_creased_pairs_from (cs : List ℚ) (key : Nat × Nat) :
    ∀ (edges : List (Nat × Nat)) (i : Nat),
      key ∈ creased_pairs (create_json_edges_from (some cs) edges i) ↔
        ∃ j, j < edges.length ∧ sortPair (edges.getD j (0, 0)) = key ∧
          (1/10 : ℚ) < cs.getD (i + j) 0
  | [], i => by simp [create_json_edges_from, creased_pairs]
  | e :: rest, i => by
      have ih := mem_creased_pairs_from cs key rest (i + 1)
      by_cases h : (1/10 : ℚ) < cs.getD i 0
      · simp only [create_json_edges_from, creased_pairs, edgeTag, if_pos h,
          List.filter_cons] at *
        have hbeq : (("Crease" : String) == "Crease") = true := by rfl
        simp only [hbeq, if_true, List.map_cons, List.mem_cons] at *
        constructor
        · rintro (hk | hk)
          · exact ⟨0, by simp, by simpa using hk.symm, by simpa using h⟩
          · obtain ⟨j, hj, hs, hc⟩ := ih.mp hk
            exact ⟨j + 1, by simpa using hj, by simpa using hs,
              by have : i + (j + 1) = i + 1 + j := by omega
                 rw [this]; exact hc⟩
        · rintro ⟨j, hj, hs, hc⟩
          cases j with
          | zero => left; simpa using hs.symm
          | succ j' =>
              right
              refine ih.mpr ⟨j', by simpa using hj, by simpa using hs, ?_⟩
              have : i + 1 + j' = i + (j' + 1) := by omega
              rw [this]; exact hc
      · simp only [create_json_edges_from, creased_pairs, edgeTag, if_neg h,
          List.filter_cons] at *
        have hbeq : (("Smooth" : String) == "Crease") = false := by rfl
        simp only [hbeq, if_false, Bool.false_eq_true, ite_false] at *
        rw [ih]
        constructor
        · rintro ⟨j, hj, hs, hc⟩
          refine ⟨j + 1, by simpa using hj, by simpa using hs, ?_⟩
          have : i + (j + 1) = i + 1 + j := by omega
          rw [this]; exact hc
        · rintro ⟨j, hj, hs, hc⟩
          cases j with
          | zero =>
              exfalso
              apply h
              simpa using hc
          | succ j' =>
              refine ⟨j', by simpa using hj, by simpa using hs, ?_⟩
              have : i + 1 + j' = i + (j' + 1) := by omega
              rw [this]; exact hc

/-- C2: decode(encode(creases)) selects exactly the unordered vertex pairs
whose sharpness exceeded the fixed threshold 0.1 on encode: a sorted pair is
in the decoder's creased set iff some encoded edge carries that unordered
pair with crease value above 0.1; the decoder assigns every topological edge
of the rebuilt mesh its mark purely by sorted-vertex-pair membership (never
by edge index), so two edges with the same unordered pair — any renumbering
or winding flip — receive the same mark. -/
theorem crease_roundtrip (edges : List (Nat × Nat)) (crease : List ℚ)
    (e e2 : Nat × Nat) (hkey : sortPair e = sortPair e2) :
    (sortPair e ∈ creased_pairs (create_json_edges edges (some crease)) ↔
      ∃ j, j < edges.length ∧ sortPair (edges.getD j (0, 0)) = sortPair e ∧
        (1/10 : ℚ) < crease.getD j 0) ∧
    (∀ mesh_edges : List (Nat × Nat),
      crease_values mesh_edges (create_json_edges edges (some crease)) =
        mesh_edges.map fun e3 =>
          if sortPair e3 ∈ creased_pairs (create_json_edges edges (some crease))
          then 1 else 0) ∧
    ((if sortPair e ∈ creased_pairs (create_json_edges edges (some crease))
        then (1 : ℚ) else 0) =
      (if sortPair e2 ∈ creased_pairs (create_json_edges edges (some crease))
        then (1 : ℚ) else 0)) := by
  refine ⟨?_, fun _ => rfl, by rw [hkey]⟩
  simpa using mem_creased_pairs_from crease (sortPair e) edges 0

/-- Witness for C2: edges `(0,1)` (crease 0.5) and `(5,2)` (crease 0.05);
the rebuilt edge `(1,0)` — flipped winding — is marked sharp, and the mark
agrees with that of `(0,1)`. -/
theorem crease_roundtrip_witness :
    sortPair (1, 0) ∈
      creased_pairs (create_json_edges [(0, 1), (5, 2)] (some [1/2, 1/20])) ∧
    ((if sortPair (1, 0) ∈
        creased_pairs (create_json_edges [(0, 1), (5, 2)] (some [1/2, 1/20]))
       then (1 : ℚ) else 0) =
      (if sortPair (0, 1) ∈
        creased_pairs (create_json_edges [(0, 1), (5, 2)] (some [1/2, 1/20]))
       then (1 : ℚ) else 0)) :=
  ⟨((crease_roundtrip [(0, 1), (5, 2)] [1/2, 1/20] (1, 0) (0, 1) rfl).1).mpr
      ⟨0, by simp, by rfl, by norm_num⟩,
   (crease_roundtrip [(0, 1), (5, 2)] [1/2, 1/20] (1, 0) (0, 1) rfl).2.2⟩

/-! ### Claim C9 (corrected) -/

/-- C9 counterexample: for the knot vector `[0,0,0,0]` with degree 3 every
knot is equal — in particular the first and last `degree + 1 = 4` knots are
all equal — yet `analyze_knots` reports `endpoint = False` (it returns
`(False, False, False)` for every vector shorter than `2 * degree`), so the
claimed "if and only if" fails at this input. -/
theorem analyze_knots_short_clamped_counterexample :
    ([0, 0, 0, 0] : List ℚ).take (3 + 1) = List.replicate (3 + 1) (0 : ℚ) ∧
    ([0, 0, 0, 0] : List ℚ).drop (([0, 0, 0, 0] : List ℚ).length - (3 + 1)) =
      List.replicate (3 + 1) (0 : ℚ) ∧
    analyze_knots [0, 0, 0, 0] 3 4 = (false, false, false) := by
  refine ⟨rfl, rfl, ?_⟩
  have h : ([0, 0, 0, 0] : List ℚ) = [] ∨
      ([0, 0, 0, 0] : List ℚ).length < 2 * 3 := by
    right
    simp
  simp [analyze_knots, h]

/-- C9 amended: for knot vectors of length at least `2 * degree` (with
`degree ≥ 1`), `analyze_knots` reports endpoint-clamped exactly when the
first and the last `degree + 1` knots are approximately equal to the first
resp. last knot (numpy `allclose` tolerances, not exact equality); shorter
or empty vectors always classify as `(False, False, False)`; cyclic is
reported only when the curve is not endpoint-clamped and the positive knot
steps are approximately uniform around their mean, so cyclic and
endpoint-clamped are never reported simultaneously. -/
theorem analyze_knots_characterization (knots : List ℚ) (d pc : Nat)
    (hd : 1 ≤ d) (hlen : 2 * d ≤ knots.length) :
    ((analyze_knots knots d pc).2.1 =
      (allclose (knots.take (d + 1)) (knots.headD 0) (1/100000) (1/100000000) &&
       allclose (knots.drop (knots.length - (d + 1))) (knots.getLastD 0)
         (1/100000) (1/100000000))) ∧
    (¬ ((analyze_knots knots d pc).1 = true ∧
        (analyze_knots knots d pc).2.1 = true)) ∧
    ((analyze_knots knots d pc).1 = true →
      (analyze_knots knots d pc).2.1 = false ∧
      ((npDiff knots).filter fun x => decide ((1/1000000 : ℚ) < x)) ≠ [] ∧
      allclose ((npDiff knots).filter fun x => decide ((1/1000000 : ℚ) < x))
        (((npDiff knots).filter fun x => decide ((1/1000000 : ℚ) < x)).sum /
          (((npDiff knots).filter fun x => decide ((1/1000000 : ℚ) < x)).length))
        (1/1000) (1/100000000) = true) := by
  have hne : ¬ (knots = [] ∨ knots.length < 2 * d) := by
    push_neg
    refine ⟨?_, by omega⟩
    intro hc
    rw [hc] at hlen
    simp at hlen
    omega
  rw [analyze_knots, if_neg hne]
  set se := allclose (knots.take (d + 1)) (knots.headD 0) (1/100000) (1/100000000) with hse
  set ee := allclose (knots.drop (knots.length - (d + 1))) (knots.getLastD 0)
    (1/100000) (1/100000000) with hee
  set vd := (npDiff knots).filter fun x => decide ((1/1000000 : ℚ) < x) with hvd
  refine ⟨rfl, ?_, ?_⟩
  · rintro ⟨hcl, hep⟩
    simp only at hcl hep
    rw [hep] at hcl
    simp at hcl
  · intro hcl
    simp only at hcl ⊢
    by_cases hep : (se && ee) = true
    · rw [if_pos hep] at hcl
      exact absurd hcl (by simp)
    · rw [if_neg hep] at hcl
      refine ⟨by simpa using hep, ?_, ?_⟩
      · intro hc
        rw [hc] at hcl
        simp at hcl
      · by_cases hvne : vd.length ≠ 0
        · rwa [if_pos hvne] at hcl
        · rw [if_neg hvne] at hcl
          exact absurd hcl (by simp)

/-! ### Claim C5 -/

theorem widthOf_pos (c : Char) : 0 < widthOf c := by
  unfold widthOf
  split <;> omega

theorem compCount_pos (t : String) : 0 < compCount t := by
  unfold compCount
  split <;> omega

theorem matDim_pos (t : String) : 0 < matDim t := by
  unfold matDim
  split <;> omega

theorem packLE_lt (w : Nat) (vals : List Nat) : ∀ b ∈ packLE w vals, b < 256 := by
  intro b hb
  simp only [packLE, List.mem_flatMap] at hb
  obtain ⟨v, _, hbv⟩ := hb
  exact leBytes_lt w v b hbv

theorem chunkEvery_nil {α : Type} (k : Nat) : chunkEvery k ([] : List α) = [] := by
  rw [chunkEvery]
  simp

/-- Chunking is a left inverse of flattening on uniformly-sized groups. -/
theorem chunkEvery_flatten {α : Type} (k : Nat) (hk : 0 < k) :
    ∀ ls : List (List α), (∀ g ∈ ls, g.length = k) →
      chunkEvery k ls.flatten = ls := by
  intro ls
  induction ls with
  | nil => exact fun _ => by simp [chunkEvery_nil]
  | cons g gs ih =>
      intro h
      have hg : g.length = k := h g (by simp)
      have hgne : g ≠ [] := by
        intro hc
        rw [hc] at hg
        simp at hg
        omega
      have hfl : (g :: gs).flatten = g ++ gs.flatten := by simp
      have hfne : ¬ ((g :: gs).flatten.isEmpty = true) := by
        rw [hfl]
        cases g with
        | nil => exact absurd rfl hgne
        | cons a as => simp
      rw [chunkEvery, dif_neg (by
        rintro (hc | hc)
        · omega
        · exact hfne hc)]
      rw [hfl, List.take_left' hg, List.drop_left' hg,
        ih (fun x hx => h x (by simp [hx]))]

/-- A scalar-shaped array is the image of its value list. -/
theorem mapM_asScalar (w : Nat) :
    ∀ arr : List UsdElem, arr.all (scalarOk w) = true →
      ∃ vals : List Nat, mapOption asScalar arr = some vals ∧
        arr = vals.map UsdElem.s ∧ ∀ x ∈ vals, x < 256 ^ w
  | [], _ => ⟨[], rfl, rfl, by simp⟩
  | e :: rest, h => by
      have h1 : scalarOk w e = true := by
        simp only [List.all_cons, Bool.and_eq_true] at h
        exact h.1
      have h2 : rest.all (scalarOk w) = true := by
        simp only [List.all_cons, Bool.and_eq_true] at h
        exact h.2
      obtain ⟨vals, hm, harr, hlt⟩ := mapM_asScalar w rest h2
      cases e with
      | s v =>
          refine ⟨v :: vals, ?_, ?_, ?_⟩
          · simp [mapOption, asScalar, hm]
          · simp [harr]
          · intro x hx
            rcases List.mem_cons.mp hx with rfl | hx2
            · simpa [scalarOk] using h1
            · exact hlt x hx2
      | v l => simp [scalarOk] at h1
      | m rs => simp [scalarOk] at h1

/-- A vector-shaped array is the image of its component-list list. -/
theorem mapM_asVec (w k : Nat) :
    ∀ arr : List UsdElem, arr.all (vecOk w k) = true →
      ∃ ls : List (List Nat), mapOption asVec arr = some ls ∧
        arr = ls.map UsdElem.v ∧
        ∀ l ∈ ls, l.length = k ∧ ∀ x ∈ l, x < 256 ^ w
  | [], _ => ⟨[], rfl, rfl, by simp⟩
  | e :: rest, h => by
      have h1 : vecOk w k e = true := by
        simp only [List.all_cons, Bool.and_eq_true] at h
        exact h.1
      have h2 : rest.all (vecOk w k) = true := by
        simp only [List.all_cons, Bool.and_eq_true] at h
        exact h.2
      obtain ⟨ls, hm, harr, hprop⟩ := mapM_asVec w k rest h2
      cases e with
      | s v => simp [vecOk] at h1
      | v l =>
          refine ⟨l :: ls, ?_, ?_, ?_⟩
          · simp [mapOption, asVec, hm]
          · simp [harr]
          · intro g hg
            rcases List.mem_cons.mp hg with rfl | hg2
            · simp only [vecOk, Bool.and_eq_true, decide_eq_true_eq,
                List.all_eq_true] at h1
              exact ⟨h1.1, fun x hx => by simpa using h1.2 x hx⟩
            · exact hprop g hg2
      | m rs => simp [vecOk] at h1

/-- A matrix-shaped array is the image of its row-list list. -/
theorem mapM_asMat (w k : Nat) :
    ∀ arr : List UsdElem, arr.all (matOk w k) = true →
      ∃ ms : List (List (List Nat)), mapOption asMat arr = some ms ∧
        arr = ms.map UsdElem.m ∧
        ∀ rows ∈ ms, rows.length = k ∧
          ∀ r ∈ rows, r.length = k ∧ ∀ x ∈ r, x < 256 ^ w
  | [], _ => ⟨[], rfl, rfl, by simp⟩
  | e :: rest, h => by
      have h1 : matOk w k e = true := by
        simp only [List.all_cons, Bool.and_eq_true] at h
        exact h.1
      have h2 : rest.all (matOk w k) = true := by
        simp only [List.all_cons, Bool.and_eq_true] at h
        exact h.2
      obtain ⟨ms, hm, harr, hprop⟩ := mapM_asMat w k rest h2
      cases e with
      | s v => simp [matOk] at h1
      | v l => simp [matOk] at h1
      | m rs =>
          refine ⟨rs :: ms, ?_, ?_, ?_⟩
          · simp [mapOption, asMat, hm]
          · simp [harr]
          · intro rows hrows
            rcases List.mem_cons.mp hrows with rfl | hr2
            · simp only [matOk, Bool.and_eq_true, decide_eq_true_eq,
                List.all_eq_true] at h1
              refine ⟨h1.1, fun r hr => ?_⟩
              have := h1.2 r hr
              simp only [Bool.and_eq_true, decide_eq_true_eq,
                List.all_eq_true] at this
              exact ⟨this.1, fun x hx => by simpa using this.2 x hx⟩
            · exact hprop rows hr2

/-- C5: encoding a non-empty array representable in its declared element
type — flatten row-major, pack little-endian at the type's width, base64 —
then decoding (base64-decode, little-endian unpack, un-flatten per component
count) returns the original values exactly, bit for bit. -/
theorem Encode_Decode_roundtrip (t : String) (arr : List UsdElem)
    (hne : arr ≠ []) (hshape : wellShaped t arr = true) :
    ∃ blob, Encode arr t = some blob ∧ Decode blob t = some arr := by
  rcases hcfg : USD_TYPE_CONFIG t with _ | ⟨fmt, lvl⟩
  · rw [wellShaped, hcfg] at hshape
    exact absurd hshape (by simp)
  rw [wellShaped, hcfg] at hshape
  simp only at hshape
  have hw : 0 < widthOf fmt := widthOf_pos fmt
  have hne2 : arr.isEmpty = false := by
    cases arr with
    | nil => exact absurd rfl hne
    | cons a rest => rfl
  by_cases hl0 : lvl = 0
  · subst hl0
    rw [if_pos rfl] at hshape
    obtain ⟨vals, hm, harr, hlt⟩ := mapM_asScalar (widthOf fmt) arr hshape
    have hall : vals.all (fun v => v < 256 ^ widthOf fmt) = true := by
      simp only [List.all_eq_true, decide_eq_true_eq]
      exact hlt
    refine ⟨b64encode (packLE (widthOf fmt) vals), ?_, ?_⟩
    · simp [Encode, hne2, hcfg, flattenElems, hm, hall]
    · simp [Decode, hcfg,
        b64decode_b64encode (packLE (widthOf fmt) vals) (packLE_lt _ _),
        unpackLE_packLE (widthOf fmt) hw vals hlt, harr]
  · by_cases hl1 : lvl = 1
    · subst hl1
      rw [if_neg (by omega), if_pos rfl] at hshape
      obtain ⟨ls, hm, harr, hprop⟩ := mapM_asVec (widthOf fmt) (compCount t) arr hshape
      have hflt : ∀ x ∈ ls.flatten, x < 256 ^ widthOf fmt := by
        intro x hx
        obtain ⟨g, hg, hxg⟩ := List.mem_flatten.mp hx
        exact (hprop g hg).2 x hxg
      have hall : ls.flatten.all (fun v => v < 256 ^ widthOf fmt) = true := by
        simp only [List.all_eq_true, decide_eq_true_eq]
        exact hflt
      refine ⟨b64encode (packLE (widthOf fmt) ls.flatten), ?_, ?_⟩
      · simp [Encode, hne2, hcfg, flattenElems, hm, hall]
      · simp [Decode, hcfg,
          b64decode_b64encode (packLE (widthOf fmt) ls.flatten) (packLE_lt _ _),
          unpackLE_packLE (widthOf fmt) hw ls.flatten hflt,
          chunkEvery_flatten (compCount t) (compCount_pos t) ls
            (fun g hg => (hprop g hg).1), harr]
    · rw [if_neg hl0, if_neg hl1] at hshape
      obtain ⟨ms, hm, harr, hprop⟩ := mapM_asMat (widthOf fmt) (matDim t) arr hshape
      have hrowlen : ∀ rows ∈ ms, (rows.flatten).length = matDim t * matDim t := by
        intro rows hrows
        obtain ⟨hlen, hr⟩ := hprop rows hrows
        rw [List.length_flatten]
        have : rows.map List.length = List.replicate (matDim t) (matDim t) := by
          rw [List.eq_replicate_iff]
          refine ⟨by simp [hlen], ?_⟩
          intro x hx
          obtain ⟨r, hrmem, rfl⟩ := List.mem_map.mp hx
          exact (hr r hrmem).1
        rw [this]
        simp [List.sum_replicate, Nat.smul_one_eq_cast]
      have hflt : ∀ x ∈ (ms.map List.flatten).flatten, x < 256 ^ widthOf fmt := by
        intro x hx
        obtain ⟨g, hg, hxg⟩ := List.mem_flatten.mp hx
        obtain ⟨rows, hrows, rfl⟩ := List.mem_map.mp hg
        obtain ⟨r, hr, hxr⟩ := List.mem_flatten.mp hxg
        exact ((hprop rows hrows).2 r hr).2 x hxr
      have hall : ((ms.map List.flatten).flatten).all
          (fun v => v < 256 ^ widthOf fmt) = true := by
        simp only [List.all_eq_true, decide_eq_true_eq]
        exact hflt
      refine ⟨b64encode (packLE (widthOf fmt) (ms.map List.flatten).flatten), ?_, ?_⟩
      · simp [Encode, hne2, hcfg, flattenElems, hl0, hl1, hm, hall]
      · have hkk : 0 < matDim t * matDim t :=
          Nat.mul_pos (matDim_pos t) (matDim_pos t)
        have hchunk1 : chunkEvery (matDim t * matDim t)
            ((ms.map List.flatten).flatten) = ms.map List.flatten :=
          chunkEvery_flatten _ hkk _ (by
            intro g hg
            obtain ⟨rows, hrows, rfl⟩ := List.mem_map.mp hg
            exact hrowlen rows hrows)
        have hchunk2 : (ms.map List.flatten).map
            (fun g => UsdElem.m (chunkEvery (matDim t) g)) = ms.map UsdElem.m := by
          rw [List.map_map]
          apply List.map_congr_left
          intro rows hrows
          simp only [Function.comp_apply]
          rw [chunkEvery_flatten (matDim t) (matDim_pos t) rows
            (fun r hr => ((hprop rows hrows).2 r hr).1)]
        simp [Decode, hcfg,
          b64decode_b64encode (packLE (widthOf fmt) (ms.map List.flatten).flatten)
            (packLE_lt _ _),
          unpackLE_packLE (widthOf fmt) hw _ hflt,
          hl0, hl1, hchunk1, hchunk2, harr]

/-- Witness for C5: the float32 scalar array `[1.5, -2.25, 3.0]` (bit
patterns `0x3FC00000`, `0xC0100000`, `0x40400000`) round-trips exactly. -/
theorem Encode_Decode_roundtrip_witness :
    (float32val 0x3FC00000 = 3/2 ∧ float32val 0xC0100000 = -9/4 ∧
      float32val 0x40400000 = 3) ∧
    (∃ blob,
      Encode [UsdElem.s 0x3FC00000, UsdElem.s 0xC0100000, UsdElem.s 0x40400000]
        ("float") = some blob ∧
      Decode blob ("float") =
        some [UsdElem.s 0x3FC00000, UsdElem.s 0xC0100000, UsdElem.s 0x40400000]) :=
  ⟨⟨by norm_num [float32val], by norm_num [float32val], by norm_num [float32val]⟩,
   Encode_Decode_roundtrip ("float")
     [UsdElem.s 0x3FC00000, UsdElem.s 0xC0100000, UsdElem.s 0x40400000]
     (by simp) (by decide)⟩

/-- Witness for C9 (amended) at the clamped knot vector
`[0,0,0,0,1,2,3,3,3,3]`, degree 3. -/
theorem analyze_knots_characterization_witness :
    (analyze_knots [0, 0, 0, 0, 1, 2, 3, 3, 3, 3] 3 6).2.1 = true ∧
    ¬ ((analyze_knots [0, 0, 0, 0, 1, 2, 3, 3, 3, 3] 3 6).1 = true ∧
       (analyze_knots [0, 0, 0, 0, 1, 2, 3, 3, 3, 3] 3 6).2.1 = true) := by
  have h := analyze_knots_characterization [0, 0, 0, 0, 1, 2, 3, 3, 3, 3] 3 6
    (by norm_num) (by simp)
  refine ⟨h.1.trans ?_, h.2.1⟩
  simp [allclose]
  norm_num

/-! ### Claim C8 -/

/-- Closed form of phase 1 of the mesh export: each ngon with a nonempty
boundary appends one count (the boundary length), its mapped boundary
indices, and its member-face indices. -/
theorem exportNgons_spec (ti : Nat → Nat) :
    ∀ (ngons : List RhinoNgon) (st : ExportState),
      exportNgons ti ngons st =
        ⟨st.face_counts ++
          (ngons.filter fun g => !g.BoundaryVertexIndexList.isEmpty).map
            (fun g => g.BoundaryVertexIndexList.length),
         st.face_indices ++
          (ngons.filter fun g => !g.BoundaryVertexIndexList.isEmpty).flatMap
            (fun g => g.BoundaryVertexIndexList.map ti),
         st.processed_faces ++
          (ngons.filter fun g => !g.BoundaryVertexIndexList.isEmpty).flatMap
            RhinoNgon.FaceIndexList⟩
  | [], st => by simp [exportNgons]
  | g :: rest, st => by
      have ih := exportNgons_spec ti rest (exportNgonStep ti st g)
      rw [exportNgons, ih]
      by_cases hb : g.BoundaryVertexIndexList = []
      · have hf : (g.BoundaryVertexIndexList.isEmpty : Bool) = true := by
          simp [hb]
        simp [exportNgonStep, hb, List.filter_cons, hf]
      · have hf : (g.BoundaryVertexIndexList.isEmpty : Bool) = false := by
          simpa using hb
        simp [exportNgonStep, hb, List.filter_cons, hf]

/-- Closed form of phase 2 of the mesh export: every enumerated face whose
index is not in the (unchanged) processed set appends its count and its
mapped vertex indices. -/
theorem exportFacesLoop_spec (ti : Nat → Nat) :
    ∀ (ps : List (Nat × RhinoFace)) (st : ExportState),
      exportFacesLoop ti ps st =
        ⟨st.face_counts ++
          (ps.filter fun p => decide (p.1 ∉ st.processed_faces)).map
            (fun p => if p.2.IsQuad then 4 else 3),
         st.face_indices ++
          (ps.filter fun p => decide (p.1 ∉ st.processed_faces)).flatMap
            (fun p => if p.2.IsQuad then
              [ti p.2.A, ti p.2.B, ti p.2.C, ti p.2.D]
            else [ti p.2.A, ti p.2.B, ti p.2.C]),
         st.processed_faces⟩
  | [], st => by simp [exportFacesLoop]
  | p :: rest, st => by
      have ih := exportFacesLoop_spec ti rest (exportFaceStep ti st p)
      rw [exportFacesLoop, ih]
      by_cases hmem : p.1 ∈ st.processed_faces
      · simp [exportFaceStep, hmem, List.filter_cons]
      · by_cases hq : p.2.IsQuad
        · simp [exportFaceStep, hmem, hq, List.filter_cons]
        · simp [exportFaceStep, hmem, hq, List.filter_cons]

/-- C8: on mesh export every face that belongs to a detected n-gon is
skipped for direct emission and the n-gon is stored once as a single face
whose count equals its boundary length (so a count above 4 is preserved, not
fan-triangulated); and for every input the emitted topology satisfies
`sum(face-vertex counts) = len(face-vertex indices)`. -/
theorem ExportMesh_spec (ti : Nat → Nat) (ngons : List RhinoNgon)
    (faces : List RhinoFace)
    (hng : ∀ g ∈ ngons, g.BoundaryVertexIndexList ≠ []) :
    ((ExportMesh ti ngons faces).1 =
      ngons.map (fun g => g.BoundaryVertexIndexList.length) ++
        (faces.enum.filter fun p =>
          decide (p.1 ∉ ngons.flatMap RhinoNgon.FaceIndexList)).map
          (fun p => if p.2.IsQuad then 4 else 3)) ∧
    ∀ (ngons2 : List RhinoNgon) (faces2 : List RhinoFace),
      (ExportMesh ti ngons2 faces2).1.sum =
        (ExportMesh ti ngons2 faces2).2.length := by
  have hfilter : (ngons.filter fun g => !g.BoundaryVertexIndexList.isEmpty) =
      ngons := by
    rw [List.filter_eq_self]
    intro g hg
    have := hng g hg
    simp only [Bool.not_eq_true']
    cases hgb : g.BoundaryVertexIndexList with
    | nil => exact absurd hgb this
    | cons a rest => rfl
  constructor
  · rw [ExportMesh]
    rw [exportNgons_spec ti ngons ⟨[], [], []⟩]
    rw [exportFaces, exportFacesLoop_spec]
    simp [hfilter]
  · intro ngons2 faces2
    rw [ExportMesh]
    rw [exportNgons_spec ti ngons2 ⟨[], [], []⟩]
    rw [exportFaces, exportFacesLoop_spec]
    simp only [List.nil_append, List.sum_append, List.length_append]
    congr 1
    · rw [List.length_flatMap]
      congr 1
      apply List.map_congr_left
      intro g _
      simp
    · rw [List.length_flatMap]
      congr 1
      apply List.map_congr_left
      intro p _
      by_cases hq : p.2.IsQuad <;> simp [hq]

/-- Witness for C8: one hexagonal ngon covering four triangle faces plus one
separate quad; the emitted counts are `[6, 4]` and the invariant holds. -/
theorem ExportMesh_spec_witness :
    (ExportMesh id [⟨[0, 1, 2, 3, 4, 5], [0, 1, 2, 3]⟩]
      [⟨false, 0, 1, 2, 2⟩, ⟨false, 0, 2, 3, 3⟩, ⟨false, 0, 3, 4, 4⟩,
       ⟨false, 0, 4, 5, 5⟩, ⟨true, 6, 7, 8, 9⟩]).1 = [6, 4] ∧
    (ExportMesh id [⟨[0, 1, 2, 3, 4, 5], [0, 1, 2, 3]⟩]
      [⟨false, 0, 1, 2, 2⟩, ⟨false, 0, 2, 3, 3⟩, ⟨false, 0, 3, 4, 4⟩,
       ⟨false, 0, 4, 5, 5⟩, ⟨true, 6, 7, 8, 9⟩]).1.sum =
    (ExportMesh id [⟨[0, 1, 2, 3, 4, 5], [0, 1, 2, 3]⟩]
      [⟨false, 0, 1, 2, 2⟩, ⟨false, 0, 2, 3, 3⟩, ⟨false, 0, 3, 4, 4⟩,
       ⟨false, 0, 4, 5, 5⟩, ⟨true, 6, 7, 8, 9⟩]).2.length :=
  ⟨((ExportMesh_spec id [⟨[0, 1, 2, 3, 4, 5], [0, 1, 2, 3]⟩]
      [⟨false, 0, 1, 2, 2⟩, ⟨false, 0, 2, 3, 3⟩, ⟨false, 0, 3, 4, 4⟩,
       ⟨false, 0, 4, 5, 5⟩, ⟨true, 6, 7, 8, 9⟩]
      (by intro g hg; simp at hg; subst hg; simp)).1).trans (by decide),
   (ExportMesh_spec id [⟨[0, 1, 2, 3, 4, 5], [0, 1, 2, 3]⟩]
      [⟨false, 0, 1, 2, 2⟩, ⟨false, 0, 2, 3, 3⟩, ⟨false, 0, 3, 4, 4⟩,
       ⟨false, 0, 4, 5, 5⟩, ⟨true, 6, 7, 8, 9⟩]
      (by intro g hg; simp at hg; subst hg; simp)).2 _ _⟩

/-! ### Claim C1 -/

theorem fanFaces_length (idx : List Nat) (p c : Nat) :
    (fanFaces idx p c).length = c - 2 := by
  simp [fanFaces]

theorem fanFaces_getD (idx : List Nat) (p c i : Nat) (h : i < c - 2) :
    (fanFaces idx p c).getD i default =
      triFace (idx.getD p 0) (idx.getD (p + i + 1) 0) (idx.getD (p + i + 2) 0) := by
  rw [fanFaces, getD_map_range _ _ _ i h]

/-- Tri/quad prefix faces are emitted one-to-one before the ngon, advancing
the index pointer by their total count and leaving `ngon_data` untouched. -/
theorem decodeFacesAux_prefix (idx : List Nat) :
    ∀ (pre : List Nat), (∀ c ∈ pre, c = 3 ∨ c = 4) →
      ∀ (rest : List Nat) (p : Nat) (faces : List MeshFace)
        (ngons : List (List Nat)),
        ∃ F : List MeshFace,
          decodeFacesAux idx (pre ++ rest) p faces ngons =
            decodeFacesAux idx rest (p + pre.sum) (faces ++ F) ngons ∧
          F.length = pre.length
  | [], _ => fun rest p faces ngons => ⟨[], by simp, rfl⟩
  | c :: pre2, h => fun rest p faces ngons => by
      have hc : c = 3 ∨ c = 4 := h c (by simp)
      have htl : ∀ x ∈ pre2, x = 3 ∨ x = 4 := fun x hx => h x (by simp [hx])
      rcases hc with rfl | rfl
      · obtain ⟨F2, hF2, hlen⟩ := decodeFacesAux_prefix idx pre2 htl rest (p + 3)
          (faces ++ [triFace (idx.getD p 0) (idx.getD (p + 1) 0) (idx.getD (p + 2) 0)])
          ngons
        refine ⟨triFace (idx.getD p 0) (idx.getD (p + 1) 0) (idx.getD (p + 2) 0)
          :: F2, ?_, by simp [hlen]⟩
        have hstep : decodeFacesAux idx ((3 :: pre2) ++ rest) p faces ngons =
            decodeFacesAux idx (pre2 ++ rest) (p + 3)
              (faces ++ [triFace (idx.getD p 0) (idx.getD (p + 1) 0)
                (idx.getD (p + 2) 0)]) ngons := by
          simp [decodeFacesAux]
        rw [hstep, hF2]
        have h1 : p + 3 + pre2.sum = p + (3 :: pre2).sum := by
          simp [List.sum_cons]
          omega
        have h2 : faces ++ [triFace (idx.getD p 0) (idx.getD (p + 1) 0)
            (idx.getD (p + 2) 0)] ++ F2 =
            faces ++ (triFace (idx.getD p 0) (idx.getD (p + 1) 0)
              (idx.getD (p + 2) 0) :: F2) := by
          simp
        rw [h1, h2]
      · obtain ⟨F2, hF2, hlen⟩ := decodeFacesAux_prefix idx pre2 htl rest (p + 4)
          (faces ++ [quadFace (idx.getD p 0) (idx.getD (p + 1) 0) (idx.getD (p + 2) 0)
            (idx.getD (p + 3) 0)])
          ngons
        refine ⟨quadFace (idx.getD p 0) (idx.getD (p + 1) 0) (idx.getD (p + 2) 0)
          (idx.getD (p + 3) 0) :: F2, ?_, by simp [hlen]⟩
        have hstep : decodeFacesAux idx ((4 :: pre2) ++ rest) p faces ngons =
            decodeFacesAux idx (pre2 ++ rest) (p + 4)
              (faces ++ [quadFace (idx.getD p 0) (idx.getD (p + 1) 0)
                (idx.getD (p + 2) 0) (idx.getD (p + 3) 0)]) ngons := by
          simp [decodeFacesAux]
        rw [hstep, hF2]
        have h1 : p + 4 + pre2.sum = p + (4 :: pre2).sum := by
          simp [List.sum_cons]
          omega
        have h2 : faces ++ [quadFace (idx.getD p 0) (idx.getD (p + 1) 0)
            (idx.getD (p + 2) 0) (idx.getD (p + 3) 0)] ++ F2 =
            faces ++ (quadFace (idx.getD p 0) (idx.getD (p + 1) 0)
              (idx.getD (p + 2) 0) (idx.getD (p + 3) 0) :: F2) := by
          simp
        rw [h1, h2]

/-- Tri/quad faces after the ngon only append faces and never extend
`ngon_data`. -/
theorem decodeFacesAux_suffix (idx : List Nat) :
    ∀ (post : List Nat), (∀ c ∈ post, c = 3 ∨ c = 4) →
      ∀ (p : Nat) (faces : List MeshFace) (ngons : List (List Nat)),
        ∃ G : List MeshFace,
          decodeFacesAux idx post p faces ngons = (faces ++ G, ngons)
  | [], _ => fun p faces ngons => ⟨[], by simp [decodeFacesAux]⟩
  | c :: post2, h => fun p faces ngons => by
      have hc : c = 3 ∨ c = 4 := h c (by simp)
      have htl : ∀ x ∈ post2, x = 3 ∨ x = 4 := fun x hx => h x (by simp [hx])
      rcases hc with rfl | rfl
      · obtain ⟨G2, hG2⟩ := decodeFacesAux_suffix idx post2 htl (p + 3)
          (faces ++ [triFace (idx.getD p 0) (idx.getD (p + 1) 0) (idx.getD (p + 2) 0)])
          ngons
        refine ⟨triFace (idx.getD p 0) (idx.getD (p + 1) 0) (idx.getD (p + 2) 0)
          :: G2, ?_⟩
        have hstep : decodeFacesAux idx (3 :: post2) p faces ngons =
            decodeFacesAux idx post2 (p + 3)
              (faces ++ [triFace (idx.getD p 0) (idx.getD (p + 1) 0)
                (idx.getD (p + 2) 0)]) ngons := by
          simp [decodeFacesAux]
        rw [hstep, hG2]
        simp
      · obtain ⟨G2, hG2⟩ := decodeFacesAux_suffix idx post2 htl (p + 4)
          (faces ++ [quadFace (idx.getD p 0) (idx.getD (p + 1) 0) (idx.getD (p + 2) 0)
            (idx.getD (p + 3) 0)])
          ngons
        refine ⟨quadFace (idx.getD p 0) (idx.getD (p + 1) 0) (idx.getD (p + 2) 0)
          (idx.getD (p + 3) 0) :: G2, ?_⟩
        have hstep : decodeFacesAux idx (4 :: post2) p faces ngons =
            decodeFacesAux idx post2 (p + 4)
              (faces ++ [quadFace (idx.getD p 0) (idx.getD (p + 1) 0)
                (idx.getD (p + 2) 0) (idx.getD (p + 3) 0)]) ngons := by
          simp [decodeFacesAux]
        rw [hstep, hG2]
        simp

/-- The boundary-walk tail over a run of consecutive fan triangles collects
the remaining fan vertices in order. -/
theorem rebuildTail_fan (faces : List MeshFace) (g : Nat → Nat) (t m : Nat)
    (hface : ∀ i, i < m →
      faces.getD (t + i) default = triFace (g 0) (g (i + 1)) (g (i + 2))) :
    ∀ (m2 a : Nat), 1 ≤ m2 → a + m2 = m →
      rebuildTail faces (List.range' (t + a) m2) =
        (List.range' (a + 1) (m2 + 1)).map g := by
  intro m2
  induction m2 with
  | zero => intro a h1 _; omega
  | succ k ih =>
      intro a h1 h2
      cases k with
      | zero =>
          have hfa := hface a (by omega)
          have hr1 : List.range' (t + a) 1 = [t + a] := rfl
          have hr2 : List.range' (a + 1) 2 = [a + 1, a + 2] := rfl
          rw [hr1, hr2, rebuildTail, hfa]
          rfl
      | succ k2 =>
          have hfa := hface a (by omega)
          have h3 : List.range' (t + a) (k2 + 1 + 1) =
              (t + a) :: List.range' (t + a + 1) (k2 + 1) :=
            List.range'_succ _ _ _
          have h4 : List.range' (t + a + 1) (k2 + 1) =
              (t + a + 1) :: List.range' (t + a + 2) k2 :=
            List.range'_succ _ _ _
          have htail : rebuildTail faces (List.range' (t + a + 1) (k2 + 1)) =
              (List.range' (a + 1 + 1) (k2 + 1 + 1)).map g := by
            have h5 : t + a + 1 = t + (a + 1) := by omega
            rw [h5]
            exact ih (a + 1) (by omega) (by omega)
          have h6 : List.range' (a + 1) (k2 + 1 + 1 + 1) =
              (a + 1) :: List.range' (a + 1 + 1) (k2 + 1 + 1) :=
            List.range'_succ _ _ _
          rw [h3, h4]
          simp only [rebuildTail]
          rw [← h4, htail, hfa, h6, List.map_cons]
          rfl

/-- The full boundary walk over a fan-triangle run reproduces the fan's
vertex cycle `g 0, g 1, …, g (m + 1)` in order. -/
theorem rebuildBoundary_fan (faces : List MeshFace) (g : Nat → Nat) (t m : Nat)
    (hm : 2 ≤ m)
    (hface : ∀ i, i < m →
      faces.getD (t + i) default = triFace (g 0) (g (i + 1)) (g (i + 2))) :
    rebuildBoundary faces (List.range' t m) = (List.range (m + 2)).map g := by
  obtain ⟨k, rfl⟩ : ∃ k, m = k + 2 := ⟨m - 2, by omega⟩
  have hf0 := hface 0 (by omega)
  have h1 : List.range' t (k + 1 + 1) = t :: List.range' (t + 1) (k + 1) :=
    List.range'_succ _ _ _
  have h2 : List.range' (t + 1) (k + 1) = (t + 1) :: List.range' (t + 2) k :=
    List.range'_succ _ _ _
  have h3 : t + 1 = t + 0 + 1 := by omega
  have htail : rebuildTail faces (List.range' (t + 1) (k + 1)) =
      (List.range' 2 (k + 2)).map g := by
    have := rebuildTail_fan faces g t (k + 2) hface (k + 1) 1 (by omega) (by omega)
    simpa using this
  rw [h1, h2, rebuildBoundary, ← h2, htail]
  have ht0 : faces.getD t default = triFace (g 0) (g 1) (g 2) := by
    simpa using hf0
  rw [ht0]
  have h4 : List.range (k + 2 + 2) = (List.range' 0 (k + 2 + 2)) :=
    List.range_eq_range' _
  have h5 : List.range' 0 (k + 2 + 2) = 0 :: List.range' 1 (k + 2 + 1) :=
    List.range'_succ _ _ _
  have h6 : List.range' 1 (k + 2 + 1) = 1 :: List.range' 2 (k + 2) :=
    List.range'_succ _ _ _
  rw [h4, h5, h6, List.map_cons, List.map_cons]
  rfl

/-- C1: for a mesh whose faces are tris/quads plus exactly one n-gon face
with count `n > 4` in flattened form, the decoder fan-triangulates the n-gon
from its first vertex into exactly `n - 2` triangles — triangle `i` being
`(v0, v_(i+1), v_(i+2))` — records that triangle run as the single entry of
`ngon_data`, and the boundary loop rebuilt from that run is exactly the
n-gon's original vertex list, i.e. it visits all original vertices in the
original cyclic order (a fortiori up to rotation/reflection). -/
theorem Import_ngon_fan (pre post : List Nat)
    (hpre : ∀ c ∈ pre, c = 3 ∨ c = 4) (hpost : ∀ c ∈ post, c = 3 ∨ c = 4)
    (n : Nat) (hn : 4 < n) (idx : List Nat) :
    (decodeFaces (pre ++ n :: post) idx).2 = [List.range' pre.length (n - 2)] ∧
    (∀ i, i < n - 2 →
      (decodeFaces (pre ++ n :: post) idx).1.getD (pre.length + i) default =
        triFace (idx.getD pre.sum 0) (idx.getD (pre.sum + i + 1) 0)
          (idx.getD (pre.sum + i + 2) 0)) ∧
    rebuildBoundary (decodeFaces (pre ++ n :: post) idx).1
        (List.range' pre.length (n - 2)) =
      (List.range n).map (fun k => idx.getD (pre.sum + k) 0) := by
  obtain ⟨F, hF, hFlen⟩ := decodeFacesAux_prefix idx pre hpre (n :: post) 0 [] []
  have hstep : decodeFacesAux idx (n :: post) (0 + pre.sum) ([] ++ F) [] =
      decodeFacesAux idx post (0 + pre.sum + n)
        (([] ++ F) ++ fanFaces idx (0 + pre.sum) n)
        ([] ++ [List.range' ([] ++ F : List MeshFace).length (n - 2)]) := by
    rw [decodeFacesAux]
    rw [if_neg (by omega), if_neg (by omega)]
  obtain ⟨G, hG⟩ := decodeFacesAux_suffix idx post hpost (0 + pre.sum + n)
    (([] ++ F) ++ fanFaces idx (0 + pre.sum) n)
    ([] ++ [List.range' ([] ++ F : List MeshFace).length (n - 2)])
  have hdec : decodeFaces (pre ++ n :: post) idx =
      (F ++ fanFaces idx pre.sum n ++ G,
       [List.range' pre.length (n - 2)]) := by
    rw [decodeFaces, hF, hstep, hG]
    simp [hFlen]
  have hface : ∀ i, i < n - 2 →
      (decodeFaces (pre ++ n :: post) idx).1.getD (pre.length + i) default =
        triFace (idx.getD pre.sum 0) (idx.getD (pre.sum + i + 1) 0)
          (idx.getD (pre.sum + i + 2) 0) := by
    intro i hi
    rw [hdec]
    have hsplit : F ++ fanFaces idx pre.sum n ++ G =
        F ++ (fanFaces idx pre.sum n ++ G) := by simp
    rw [hsplit, List.getD_append_right F _ default (pre.length + i) (by omega),
      hFlen]
    have h7 : pre.length + i - pre.length = i := by omega
    rw [h7, List.getD_append _ _ default i (by
      rw [fanFaces_length]
      omega)]
    exact fanFaces_getD idx pre.sum n i hi
  refine ⟨by rw [hdec], hface, ?_⟩
  have hb := rebuildBoundary_fan ((decodeFaces (pre ++ n :: post) idx).1)
    (fun k => idx.getD (pre.sum + k) 0) pre.length (n - 2) (by omega) (by
      intro i hi
      rw [hface i hi]
      simp [Nat.add_assoc])
  rw [hb]
  have h8 : n - 2 + 2 = n := by omega
  rw [h8]

/-- Witness for C1: a single 6-sided face `[10, 11, 12, 13, 14, 15]` decodes
into one recorded run of four fan triangles whose rebuilt boundary visits
all six original vertices in order. -/
theorem Import_ngon_fan_witness :
    (decodeFaces [6] [10, 11, 12, 13, 14, 15]).2 = [List.range' 0 4] ∧
    rebuildBoundary (decodeFaces [6] [10, 11, 12, 13, 14, 15]).1
        (List.range' 0 4) =
      (List.range 6).map (fun k => [10, 11, 12, 13, 14, 15].getD (0 + k) 0) ∧
    (List.range 6).map (fun k => [10, 11, 12, 13, 14, 15].getD (0 + k) 0) =
      [10, 11, 12, 13, 14, 15] :=
  ⟨by
    have h := (Import_ngon_fan [] [] (by simp) (by simp) 6 (by omega)
      [10, 11, 12, 13, 14, 15]).1
    simpa using h,
   by
    have h := (Import_ngon_fan [] [] (by simp) (by simp) 6 (by omega)
      [10, 11, 12, 13, 14, 15]).2.2
    simpa using h,
   by decide⟩

end ET
